import Mathlib

/-!
Verification development for the Compliant ATS prototype.

The embedding below translates the compliance-screening pipeline of
`newapp.py` (class `FeedbackComplianceChecker`, function
`generate_compliant_feedback_for_recruiter`) and the candidate-ranking
logic of `newats_engine.py` (`rank_candidates`) into Lean.

Modelling conventions:
* Python strings are Lean `String`s; the Python substring test `a in b`
  is contiguous-substring containment, embedded as `containsSub` over
  the underlying character lists.
* `str.lower()` is embedded as character-wise ASCII lower-casing
  (`Char.toLower`); every term of the static lexicon is ASCII.
* Python's `set` of prohibited terms is embedded as a duplicate-free
  list in source order; the claims settled here depend only on
  membership and emptiness, never on iteration order.
* The external chat-completion and embedding services are opaque
  collaborators; they are embedded as oracle function parameters.
-/

namespace ATS

/-- `isPrefixList n h` holds when `n` is an initial segment of `h`
(character-wise equality). Building block for substring containment. -/
def isPrefixList : List Char → List Char → Bool
  | [], _ => true
  | _ :: _, [] => false
  | a :: as, b :: bs => a == b && isPrefixList as bs

/-- Embedding of Python's `needle in haystack` on strings: contiguous
substring containment (the empty needle is contained in everything). -/
def containsSub (needle : List Char) : List Char → Bool
  | [] => needle.isEmpty
  | h :: t => isPrefixList needle (h :: t) || containsSub needle t

/-- Embedding of `feedback_text.lower()`; ASCII lower-casing of the
character sequence of a string. -/
def lowerStr (s : String) : List Char := s.data.map Char.toLower

/-- The static prohibited-term lexicon `self.prohibited_terms` of
`FeedbackComplianceChecker.__init__`, in source order.  The Python value
is a `set` literal of distinct lowercase strings; it is embedded as a
list. -/
def prohibited_terms : List String :=
  [ -- Age-related
    "age", "young", "old", "mature", "recent graduate", "retirement",
    "youthful", "elderly", "senior", "junior", "experienced professional",
    -- National origin
    "native", "foreign", "accent", "immigrant", "citizenship",
    "visa", "work authorization", "country of origin",
    -- Gender
    "he", "she", "his", "her", "him", "gender", "man", "woman",
    "masculine", "feminine", "lady", "gentleman",
    -- Disability
    "disability", "handicap", "disabled", "able-bodied", "medical condition",
    "health", "accommodation",
    -- Personal characteristics
    "culture fit", "personality", "enthusiasm", "attitude", "energy level",
    "passion", "motivated", "team player", "ambitious",
    -- Family/marital status
    "family", "children", "married", "single", "parent", "spouse",
    "maternity", "paternity",
    -- Religion
    "religious", "religion", "faith", "church", "mosque", "temple",
    -- Race/ethnicity
    "diverse", "diversity", "minority", "majority",
    -- Other protected characteristics
    "pregnant", "pregnancy", "veteran", "military service" ]

/-- The allow-list `self.allowed_contexts`: a table from a context
category to its context phrases. -/
def allowed_contexts : List (String × List String) :=
  [ ("experience", ["years of experience", "work experience"]),
    ("technical", ["native code", "native app", "native development"]) ]

/-- The fixed high-severity subset used inside `check_compliance`. -/
def high_severity : List String :=
  ["age", "gender", "disability", "race", "religion",
   "pregnant", "family", "married", "children"]

/-- Result dictionary of `FeedbackComplianceChecker.check_compliance`. -/
structure ComplianceResult where
  compliant : Bool
  violations : List String
  severity : String
  recommendation : String
deriving DecidableEq

/-- The inner allow-list test of `check_compliance`: a matched `term` is
excused when some context phrase (of any category) occurs in the
lower-cased text and the term is a substring of that phrase. -/
def isAllowed (feedback_lower : List Char) (term : String) : Bool :=
  allowed_contexts.any fun entry =>
    entry.2.any fun context =>
      containsSub context.data feedback_lower && containsSub term.data context.data

/-- Embedding of `FeedbackComplianceChecker.check_compliance`: lower-case
the text, collect every prohibited term occurring as a substring and not
excused by the allow-list, then derive severity, recommendation and the
compliant flag. -/
def check_compliance (feedback_text : String) : ComplianceResult :=
  let feedback_lower := lowerStr feedback_text
  let violations := prohibited_terms.filter fun term =>
    containsSub term.data feedback_lower && ! isAllowed feedback_lower term
  let severity :=
    if violations.isEmpty then "none"
    else if violations.any fun term => high_severity.contains term then "high"
    else "low"
  let recommendation :=
    if severity = "none" then "Feedback passed compliance check."
    else if severity = "low" then
      "Review feedback for soft skills language. Consider focusing only on technical qualifications."
    else
      "CRITICAL: Feedback contains prohibited discriminatory language. Do not send. Regenerate with stricter constraints."
  { compliant := violations.isEmpty
    violations := violations
    severity := severity
    recommendation := recommendation }

/-- The placeholder marker inserted by `sanitize_feedback`. -/
def removed_marker : String := "<!-- Line removed for compliance -->"

/-- Splitting a character sequence at every occurrence of `sep`,
matching Python's `text.split(sep)` for a single-character separator:
the empty input yields one empty piece, and `n` separators yield
`n + 1` pieces. -/
def splitChar (sep : Char) : List Char → List (List Char)
  | [] => [[]]
  | c :: cs =>
    match splitChar sep cs with
    | [] => [[]]
    | l :: ls => if c = sep then [] :: l :: ls else (c :: l) :: ls

/-- The per-line violation test of `sanitize_feedback`: some prohibited
term occurs in the lower-cased line (no allow-list here). -/
def lineHasViolation (line : List Char) : Bool :=
  prohibited_terms.any fun term => containsSub term.data (line.map Char.toLower)

/-- Joining pieces with a single-character separator, matching Python's
`sep.join(pieces)`. -/
def joinChar (sep : Char) : List (List Char) → List Char
  | [] => []
  | [l] => l
  | l :: l' :: ls => l ++ sep :: joinChar sep (l' :: ls)

/-- Embedding of `FeedbackComplianceChecker.sanitize_feedback`: split on
newlines, replace each violating line by the marker, keep the others,
and rejoin with newlines. -/
def sanitize_feedback (feedback_text : String) : String :=
  let lines := splitChar '\n' feedback_text.data
  let sanitized_lines := lines.map fun line =>
    if lineHasViolation line then removed_marker.data else line
  ⟨joinChar '\n' sanitized_lines⟩

/-- Outcome of one call to the external chat-completion service inside
`generate_compliant_feedback_for_recruiter`: either the generated text
(`response.choices[0].message.content`) or a raised exception message. -/
inductive GenResult where
  | ok : String → GenResult
  | err : String → GenResult
deriving DecidableEq

/-- Result dictionary of `generate_compliant_feedback_for_recruiter`. -/
structure FeedbackDraft where
  feedback : Option String
  compliant : Bool
  violations : List String
  severity : String
  recommendation : String
  error : Option String
deriving DecidableEq

/-- The dictionary returned when an attempt's text passes the check. -/
def acceptedDraft (text : String) : FeedbackDraft :=
  { feedback := some text, compliant := true, violations := [],
    severity := "none", recommendation := "Feedback passed compliance check.",
    error := none }

/-- The dictionary returned when retries are exhausted: the last
generated text together with its failing verdict. -/
def exhaustedDraft (text : String) (cr : ComplianceResult) : FeedbackDraft :=
  { feedback := some text, compliant := false, violations := cr.violations,
    severity := cr.severity, recommendation := cr.recommendation,
    error := none }

/-- The dictionary returned from the `except` branch when the external
call raises. -/
def apiErrorDraft (e : String) : FeedbackDraft :=
  { feedback := none, compliant := false, violations := [],
    severity := "none", recommendation := "",
    error := some ("API Error: " ++ e) }

/-- The dictionary returned after the `for` loop falls through (in the
source this line is unreachable for `max_retries ≥ 0`). -/
def fallbackDraft : FeedbackDraft :=
  { feedback := none, compliant := false, violations := [],
    severity := "none", recommendation := "",
    error := some "Failed to generate compliant feedback after maximum retries" }

/-- The body of `for attempt in range(max_retries + 1)` in
`generate_compliant_feedback_for_recruiter`, with `fuel` the number of
loop iterations still available (`max_retries + 1 - attempt`).  The
external generation call of attempt `i` is `g i`.  The second component
of the result counts how many generation calls were issued. -/
def feedback_loop (g : Nat → GenResult) (max_retries : Nat) :
    Nat → Nat → FeedbackDraft × Nat
  | _, 0 => (fallbackDraft, 0)
  | attempt, fuel + 1 =>
    match g attempt with
    | .err e => (apiErrorDraft e, 1)
    | .ok feedback =>
      let compliance_result := check_compliance feedback
      if compliance_result.compliant then
        (acceptedDraft feedback, 1)
      else if attempt < max_retries then
        let rest := feedback_loop g max_retries (attempt + 1) fuel
        (rest.1, rest.2 + 1)
      else
        (exhaustedDraft feedback compliance_result, 1)

/-- Embedding of `generate_compliant_feedback_for_recruiter`.  The
external chat-completion service is the oracle `gen`: attempt `i`'s
outcome is `gen job_description cleaned_resume i`.  (In the source the
prompt submitted at attempt `i` is a deterministic function of the job
description, the resume, and the violations reported on attempts `< i`,
so indexing the oracle by the attempt number loses no generality.)
Returns the result dictionary paired with the number of generation
calls issued. -/
def generate_compliant_feedback_for_recruiter
    (gen : String → String → Nat → GenResult)
    (job_description cleaned_resume : String)
    (max_retries : Nat := 2) : FeedbackDraft × Nat :=
  feedback_loop (gen job_description cleaned_resume) max_retries 0 (max_retries + 1)

/-- Input record of `rank_candidates`: one entry of `candidates_data`. -/
structure Candidate where
  name : String
  resume : String
deriving DecidableEq

/-- Output record of `rank_candidates`: one entry of `results`.  The
similarity score (a float in the source) is embedded as a rational. -/
structure RankedCandidate where
  name : String
  score : ℚ
  resume : String
deriving DecidableEq

/-- The ordering used by `results.sort(key=lambda x: x["score"],
reverse=True)`: `a` may come before `b` when `a`'s score is at least
`b`'s. -/
def scoreGE (a b : RankedCandidate) : Prop := b.score ≤ a.score

instance : DecidableRel scoreGE := fun a b =>
  inferInstanceAs (Decidable (b.score ≤ a.score))

/-- Embedding of `rank_candidates` of `newats_engine.py`.  The external
embedding service (`get_embedding`) is the oracle `emb` and the numeric
`cosine_similarity` kernel is the oracle `cos`; the job description is
embedded once, each candidate's resume is embedded and scored against
it, and the result list is stably sorted by score descending (Python's
`list.sort` is stable, and with `reverse=True` ties keep their original
order). -/
def rank_candidates {V : Type} (emb : String → V) (cos : V → V → ℚ)
    (job_description : String) (candidates_data : List Candidate) :
    List RankedCandidate :=
  let jd_vec := emb job_description
  let results := candidates_data.map fun c =>
    { name := c.name, score := cos jd_vec (emb c.resume), resume := c.resume }
  results.insertionSort scoreGE

/-- The scored-but-unsorted intermediate list `results` built by
`rank_candidates` before the sort, in input order. -/
def scored_candidates {V : Type} (emb : String → V) (cos : V → V → ℚ)
    (job_description : String) (candidates_data : List Candidate) :
    List RankedCandidate :=
  candidates_data.map fun c =>
    { name := c.name, score := cos (emb job_description) (emb c.resume),
      resume := c.resume }

/-! ### Basic facts about the screener -/

theorem check_violations_eq (t : String) :
    (check_compliance t).violations = prohibited_terms.filter fun term =>
      containsSub term.data (lowerStr t) && ! isAllowed (lowerStr t) term := rfl

theorem check_compliant_eq (t : String) :
    (check_compliance t).compliant = (check_compliance t).violations.isEmpty := rfl

theorem check_severity_eq (t : String) :
    (check_compliance t).severity =
      if (check_compliance t).violations.isEmpty then "none"
      else if (check_compliance t).violations.any (fun term => high_severity.contains term)
        then "high" else "low" := rfl

theorem check_recommendation_eq (t : String) :
    (check_compliance t).recommendation =
      if (check_compliance t).severity = "none" then "Feedback passed compliance check."
      else if (check_compliance t).severity = "low" then
        "Review feedback for soft skills language. Consider focusing only on technical qualifications."
      else
        "CRITICAL: Feedback contains prohibited discriminatory language. Do not send. Regenerate with stricter constraints." := rfl

/-- A compliant verdict is the full passing record: no violations,
severity `"none"` and the pass recommendation. -/
theorem check_pass_of_compliant (t : String)
    (h : (check_compliance t).compliant = true) :
    (check_compliance t).violations = [] ∧
    (check_compliance t).severity = "none" ∧
    (check_compliance t).recommendation = "Feedback passed compliance check." := by
  have hv : (check_compliance t).violations = [] := by
    have := check_compliant_eq t
    rw [h] at this
    exact List.isEmpty_iff.mp this.symm
  have hs : (check_compliance t).severity = "none" := by
    rw [check_severity_eq, hv]
    rfl
  refine ⟨hv, hs, ?_⟩
  rw [check_recommendation_eq, hs]
  rfl

/-- C1: for every input text in which no prohibited term occurs as a
substring of the lower-cased text, `check_compliance` returns
`compliant = true`, an empty violations list, severity `"none"` and the
pass recommendation. -/
theorem check_compliance_clean_text_passes (text : String)
    (h : ∀ term ∈ prohibited_terms, containsSub term.data (lowerStr text) = false) :
    (check_compliance text).compliant = true ∧
    (check_compliance text).violations = [] ∧
    (check_compliance text).severity = "none" ∧
    (check_compliance text).recommendation = "Feedback passed compliance check." := by
  have hv : (check_compliance text).violations = [] := by
    rw [check_violations_eq]
    refine List.filter_eq_nil_iff.mpr ?_
    intro term hterm
    simp [h term hterm]
  have hc : (check_compliance text).compliant = true := by
    rw [check_compliant_eq, hv]
    rfl
  exact ⟨hc, check_pass_of_compliant text hc⟩

/-- C1 witness: the empty string contains no prohibited term and is
reported fully compliant. -/
theorem check_compliance_clean_text_passes_witness :
    (check_compliance "").compliant = true ∧
    (check_compliance "").violations = [] ∧
    (check_compliance "").severity = "none" ∧
    (check_compliance "").recommendation = "Feedback passed compliance check." :=
  check_compliance_clean_text_passes "" (by decide)

/-- C2: for every input text, severity is `"none"` iff the violations
list is empty; otherwise it is `"high"` iff some violation term belongs
to the fixed high-severity subset and `"low"` iff none does; and the
compliant flag is set exactly when the violations list is empty. -/
theorem check_compliance_severity_spec (text : String) :
    ((check_compliance text).severity = "none" ↔ (check_compliance text).violations = []) ∧
    ((check_compliance text).violations ≠ [] →
      ((check_compliance text).severity = "high" ↔
        ∃ term ∈ (check_compliance text).violations, term ∈ high_severity)) ∧
    ((check_compliance text).violations ≠ [] →
      ((check_compliance text).severity = "low" ↔
        ¬ ∃ term ∈ (check_compliance text).violations, term ∈ high_severity)) ∧
    ((check_compliance text).compliant = true ↔ (check_compliance text).violations = []) := by
  by_cases hv : (check_compliance text).violations = []
  · refine ⟨?_, by simp [hv], by simp [hv], ?_⟩
    · rw [check_severity_eq, hv]
      simp
    · rw [check_compliant_eq, hv]
      simp
  · have hne : (check_compliance text).violations.isEmpty = false := by
      simpa [List.isEmpty_iff] using hv
    have hcompl : (check_compliance text).compliant = true ↔
        (check_compliance text).violations = [] := by
      rw [check_compliant_eq]
      simp [List.isEmpty_iff]
    have hany : ((check_compliance text).violations.any fun term => high_severity.contains term) = true ↔
        ∃ term ∈ (check_compliance text).violations, term ∈ high_severity := by
      simp [List.any_eq_true]
    cases hb : (check_compliance text).violations.any fun term => high_severity.contains term
    · have hsev : (check_compliance text).severity = "low" := by
        rw [check_severity_eq, hne, hb]
        simp
      have hnex : ¬ ∃ term ∈ (check_compliance text).violations, term ∈ high_severity := by
        intro hex
        rw [hany.mpr hex] at hb
        exact Bool.true_eq_false.mp hb
      refine ⟨?_, fun _ => ?_, fun _ => ?_, hcompl⟩
      · rw [hsev]
        exact ⟨fun h => absurd h (by decide), fun h => absurd h hv⟩
      · rw [hsev]
        exact ⟨fun h => absurd h (by decide), fun hex => absurd hex hnex⟩
      · rw [hsev]
        simp [hnex]
    · have hsev : (check_compliance text).severity = "high" := by
        rw [check_severity_eq, hne, hb]
        simp
      have hex : ∃ term ∈ (check_compliance text).violations, term ∈ high_severity :=
        hany.mp hb
      refine ⟨?_, fun _ => ?_, fun _ => ?_, hcompl⟩
      · rw [hsev]
        exact ⟨fun h => absurd h (by decide), fun h => absurd h hv⟩
      · rw [hsev]
        simp [hex]
      · rw [hsev]
        exact ⟨fun h => absurd h (by decide), fun hno => absurd hex hno⟩

/-- C3: for every text and every prohibited term occurring as a
substring of the lower-cased text, the term is excluded from the
violations list exactly when some allow-list context phrase occurs in
the lower-cased text and the term is a substring of that phrase. -/
theorem check_compliance_allowlist_excusal_iff (text term : String)
    (hmem : term ∈ prohibited_terms)
    (hocc : containsSub term.data (lowerStr text) = true) :
    term ∉ (check_compliance text).violations ↔
      ∃ entry ∈ allowed_contexts, ∃ context ∈ entry.2,
        containsSub context.data (lowerStr text) = true ∧
        containsSub term.data context.data = true := by
  have hiff : term ∉ (check_compliance text).violations ↔
      isAllowed (lowerStr text) term = true := by
    rw [check_violations_eq, List.mem_filter]
    cases hall : isAllowed (lowerStr text) term <;>
      simp [hmem, hocc, hall]
  rw [hiff, isAllowed, List.any_eq_true]
  constructor
  · rintro ⟨entry, hentry, hin⟩
    rw [List.any_eq_true] at hin
    obtain ⟨context, hcontext, hboth⟩ := hin
    rw [Bool.and_eq_true] at hboth
    exact ⟨entry, hentry, context, hcontext, hboth.1, hboth.2⟩
  · rintro ⟨entry, hentry, context, hcontext, h1, h2⟩
    refine ⟨entry, hentry, ?_⟩
    rw [List.any_eq_true]
    exact ⟨context, hcontext, by rw [Bool.and_eq_true]; exact ⟨h1, h2⟩⟩

/-- C3 witness: in the text `"native code"` the prohibited term
`"native"` occurs but is excused, because the allow-list phrase
`"native code"` occurs in the text and contains the term. -/
theorem check_compliance_allowlist_excusal_iff_witness :
    "native" ∉ (check_compliance "native code").violations ↔
      ∃ entry ∈ allowed_contexts, ∃ context ∈ entry.2,
        containsSub context.data (lowerStr "native code") = true ∧
        containsSub "native".data context.data = true :=
  check_compliance_allowlist_excusal_iff "native code" "native"
    (by decide) (by decide)

/-- C10: bare substring matching flags prohibited terms occurring
inside ordinary words: whenever a prohibited term (such as `"he"`,
`"her"`, `"him"`, `"age"`, `"old"` or `"man"`) occurs as a letter
sequence anywhere in the lower-cased text and no allow-list phrase
excuses it, the term appears among the violations and the text is
reported non-compliant. -/
theorem substring_match_flags_inner_words (text term : String)
    (hmem : term ∈ prohibited_terms)
    (hocc : containsSub term.data (lowerStr text) = true)
    (hnoallow : isAllowed (lowerStr text) term = false) :
    term ∈ (check_compliance text).violations ∧
    (check_compliance text).compliant = false := by
  have hv : term ∈ (check_compliance text).violations := by
    rw [check_violations_eq, List.mem_filter]
    exact ⟨hmem, by simp [hocc, hnoallow]⟩
  refine ⟨hv, ?_⟩
  rw [check_compliant_eq]
  cases he : (check_compliance text).violations.isEmpty
  · rfl
  · rw [List.isEmpty_iff.mp he] at hv
    exact absurd hv (List.not_mem_nil term)

/-- C10 witness: the ordinary word `"the"` contains the prohibited term
`"he"` as a letter sequence, so the text `"the"` is reported
non-compliant with `"he"` among its violations. -/
theorem substring_match_flags_inner_words_witness :
    "he" ∈ (check_compliance "the").violations ∧
    (check_compliance "the").compliant = false :=
  substring_match_flags_inner_words "the" "he" (by decide) (by decide) (by decide)

/-! ### Unfolding lemmas for the retry loop -/

theorem feedback_loop_zero (g : Nat → GenResult) (mr attempt : Nat) :
    feedback_loop g mr attempt 0 = (fallbackDraft, 0) := rfl

theorem feedback_loop_succ (g : Nat → GenResult) (mr attempt fuel : Nat) :
    feedback_loop g mr attempt (fuel + 1) =
      match g attempt with
      | .err e => (apiErrorDraft e, 1)
      | .ok feedback =>
        if (check_compliance feedback).compliant then (acceptedDraft feedback, 1)
        else if attempt < mr then
          ((feedback_loop g mr (attempt + 1) fuel).1,
           (feedback_loop g mr (attempt + 1) fuel).2 + 1)
        else (exhaustedDraft feedback (check_compliance feedback), 1) := rfl

theorem feedback_loop_of_err (g : Nat → GenResult) (mr attempt fuel : Nat)
    (e : String) (hg : g attempt = .err e) :
    feedback_loop g mr attempt (fuel + 1) = (apiErrorDraft e, 1) := by
  rw [feedback_loop_succ, hg]

theorem feedback_loop_of_ok_compliant (g : Nat → GenResult) (mr attempt fuel : Nat)
    (f : String) (hg : g attempt = .ok f)
    (hc : (check_compliance f).compliant = true) :
    feedback_loop g mr attempt (fuel + 1) = (acceptedDraft f, 1) := by
  rw [feedback_loop_succ, hg]
  simp [hc]

theorem feedback_loop_of_ok_retry (g : Nat → GenResult) (mr attempt fuel : Nat)
    (f : String) (hg : g attempt = .ok f)
    (hc : (check_compliance f).compliant = false) (ha : attempt < mr) :
    feedback_loop g mr attempt (fuel + 1) =
      ((feedback_loop g mr (attempt + 1) fuel).1,
       (feedback_loop g mr (attempt + 1) fuel).2 + 1) := by
  rw [feedback_loop_succ, hg]
  simp [hc, ha]

theorem feedback_loop_of_ok_exhaust (g : Nat → GenResult) (mr attempt fuel : Nat)
    (f : String) (hg : g attempt = .ok f)
    (hc : (check_compliance f).compliant = false) (ha : ¬ attempt < mr) :
    feedback_loop g mr attempt (fuel + 1) =
      (exhaustedDraft f (check_compliance f), 1) := by
  rw [feedback_loop_succ, hg]
  simp [hc, ha]

theorem feedback_loop_calls_le (g : Nat → GenResult) (mr fuel : Nat) :
    ∀ attempt, (feedback_loop g mr attempt fuel).2 ≤ fuel := by
  induction fuel with
  | zero => intro attempt; simp [feedback_loop_zero]
  | succ fuel ih =>
    intro attempt
    cases hg : g attempt with
    | err e => rw [feedback_loop_of_err g mr attempt fuel e hg]; omega
    | ok f =>
      cases hc : (check_compliance f).compliant with
      | true =>
        rw [feedback_loop_of_ok_compliant g mr attempt fuel f hg hc]
        omega
      | false =>
        by_cases ha : attempt < mr
        · rw [feedback_loop_of_ok_retry g mr attempt fuel f hg hc ha]
          have := ih (attempt + 1)
          omega
        · rw [feedback_loop_of_ok_exhaust g mr attempt fuel f hg hc ha]
          omega

/-- C4: one invocation of `generate_compliant_feedback_for_recruiter`
issues at most `max_retries + 1` calls to the external generation
service, for every job description, resume and oracle behaviour. -/
theorem generate_feedback_call_bound (gen : String → String → Nat → GenResult)
    (job_description cleaned_resume : String) (max_retries : Nat) :
    (generate_compliant_feedback_for_recruiter gen job_description cleaned_resume
        max_retries).2 ≤ max_retries + 1 :=
  feedback_loop_calls_le (gen job_description cleaned_resume) max_retries
    (max_retries + 1) 0

theorem feedback_loop_err_after (g : Nat → GenResult) (mr : Nat) (e : String) :
    ∀ k a fuel, a + k ≤ mr → fuel = mr + 1 - a →
      (∀ i < k, ∃ t, g (a + i) = .ok t ∧ (check_compliance t).compliant = false) →
      g (a + k) = .err e →
      feedback_loop g mr a fuel = (apiErrorDraft e, k + 1) := by
  intro k
  induction k with
  | zero =>
    intro a fuel hle hfuel hpre herr
    obtain ⟨f, rfl⟩ : ∃ f, fuel = f + 1 := ⟨mr - a, by omega⟩
    rw [feedback_loop_of_err g mr a f e (by simpa using herr)]
  | succ k ih =>
    intro a fuel hle hfuel hpre herr
    obtain ⟨f, rfl⟩ : ∃ f, fuel = f + 1 := ⟨mr - a, by omega⟩
    obtain ⟨t, hg, hc⟩ := hpre 0 (by omega)
    rw [Nat.add_zero] at hg
    have ha : a < mr := by omega
    rw [feedback_loop_of_ok_retry g mr a f t hg hc ha]
    have hrec := ih (a + 1) f (by omega) (by omega)
      (fun i hi => by
        obtain ⟨u, hu, hcu⟩ := hpre (i + 1) (by omega)
        exact ⟨u, by rw [show a + 1 + i = a + (i + 1) by omega]; exact hu, hcu⟩)
      (by rw [show a + 1 + k = a + (k + 1) by omega]; exact herr)
    rw [hrec]

/-- C5: if the external generation call fails at attempt `k` (after `k`
non-compliant attempts), `generate_compliant_feedback_for_recruiter`
returns immediately the error dictionary — absent feedback, empty
violations, severity `"none"`, a populated error field — and issues no
further generation calls (exactly `k + 1` in total). -/
theorem generate_feedback_api_error_terminal
    (gen : String → String → Nat → GenResult)
    (job_description cleaned_resume : String) (max_retries k : Nat) (e : String)
    (hk : k ≤ max_retries)
    (hpre : ∀ i < k, ∃ t, gen job_description cleaned_resume i = .ok t ∧
      (check_compliance t).compliant = false)
    (herr : gen job_description cleaned_resume k = .err e) :
    generate_compliant_feedback_for_recruiter gen job_description cleaned_resume
        max_retries = (apiErrorDraft e, k + 1) := by
  unfold generate_compliant_feedback_for_recruiter
  exact feedback_loop_err_after _ max_retries e k 0 (max_retries + 1) (by omega)
    (by omega) (fun i hi => by simpa using hpre i hi) (by simpa using herr)

/-- C5 witness: the oracle produces non-compliant text `"age"` on
attempt 0 and raises on attempt 1; with one retry allowed the function
returns the error dictionary after exactly two calls. -/
theorem generate_feedback_api_error_terminal_witness :
    generate_compliant_feedback_for_recruiter
        (fun _ _ i => if i = 0 then .ok "age" else .err "boom") "jd" "resume" 1
      = (apiErrorDraft "boom", 2) :=
  generate_feedback_api_error_terminal
    (fun _ _ i => if i = 0 then .ok "age" else .err "boom") "jd" "resume" 1 1 "boom"
    (by omega)
    (fun i hi => by
      have h0 : i = 0 := by omega
      subst h0
      exact ⟨"age", rfl, by decide⟩)
    rfl

theorem feedback_loop_exhausts (g : Nat → GenResult) (mr : Nat) (tlast : String)
    (hlast : g mr = .ok tlast)
    (hall : ∀ i, i ≤ mr → ∃ t, g i = .ok t ∧ (check_compliance t).compliant = false) :
    ∀ fuel a, a ≤ mr → fuel = mr + 1 - a →
      feedback_loop g mr a fuel =
        (exhaustedDraft tlast (check_compliance tlast), mr + 1 - a) := by
  intro fuel
  induction fuel with
  | zero => intro a ha hfuel; omega
  | succ fuel ih =>
    intro a ha hfuel
    obtain ⟨t, hg, hc⟩ := hall a ha
    by_cases haeq : a = mr
    · subst haeq
      have ht : t = tlast := GenResult.ok.inj (hg.symm.trans hlast)
      subst ht
      rw [feedback_loop_of_ok_exhaust g a a fuel t hg hc (lt_irrefl a)]
      have hcount : a + 1 - a = 1 := by omega
      rw [hcount]
    · have ha' : a < mr := by omega
      rw [feedback_loop_of_ok_retry g mr a fuel t hg hc ha']
      rw [ih (a + 1) (by omega) (by omega)]
      have hcount : mr + 1 - (a + 1) + 1 = mr + 1 - a := by omega
      rw [hcount]

/-- C6: if every attempt produces non-compliant text and retries are
exhausted, `generate_compliant_feedback_for_recruiter` returns the text
generated on the final attempt together with that attempt's failing
verdict (compliant `false`, the screener's violations, severity and
recommendation, no error), after exactly `max_retries + 1` calls. -/
theorem generate_feedback_exhausted_returns_last
    (gen : String → String → Nat → GenResult)
    (job_description cleaned_resume : String) (max_retries : Nat) (tlast : String)
    (hall : ∀ i ≤ max_retries, ∃ t, gen job_description cleaned_resume i = .ok t ∧
      (check_compliance t).compliant = false)
    (hlast : gen job_description cleaned_resume max_retries = .ok tlast) :
    generate_compliant_feedback_for_recruiter gen job_description cleaned_resume
        max_retries
      = (exhaustedDraft tlast (check_compliance tlast), max_retries + 1) := by
  unfold generate_compliant_feedback_for_recruiter
  have h := feedback_loop_exhausts (gen job_description cleaned_resume) max_retries
    tlast hlast hall (max_retries + 1) 0 (by omega) (by omega)
  simpa using h

/-- C6 witness: an oracle that always returns the non-compliant text
`"age"`; with one retry allowed the function returns that text with its
failing verdict after two calls. -/
theorem generate_feedback_exhausted_returns_last_witness :
    generate_compliant_feedback_for_recruiter
        (fun _ _ _ => .ok "age") "jd" "resume" 1
      = (exhaustedDraft "age" (check_compliance "age"), 2) :=
  generate_feedback_exhausted_returns_last (fun _ _ _ => .ok "age") "jd" "resume" 1
    "age" (fun i _ => ⟨"age", rfl, by decide⟩) rfl

theorem feedback_loop_verdict_fresh (g : Nat → GenResult) (mr : Nat) :
    ∀ fuel a t, (feedback_loop g mr a fuel).1.feedback = some t →
      (feedback_loop g mr a fuel).1.compliant = (check_compliance t).compliant ∧
      (feedback_loop g mr a fuel).1.violations = (check_compliance t).violations ∧
      (feedback_loop g mr a fuel).1.severity = (check_compliance t).severity ∧
      (feedback_loop g mr a fuel).1.recommendation = (check_compliance t).recommendation := by
  intro fuel
  induction fuel with
  | zero =>
    intro a t h
    rw [feedback_loop_zero] at h
    exact absurd h (by simp [fallbackDraft])
  | succ fuel ih =>
    intro a t h
    cases hg : g a with
    | err e =>
      rw [feedback_loop_of_err g mr a fuel e hg] at h ⊢
      exact absurd h (by simp [apiErrorDraft])
    | ok f =>
      cases hc : (check_compliance f).compliant with
      | true =>
        rw [feedback_loop_of_ok_compliant g mr a fuel f hg hc] at h ⊢
        have ht : t = f := by simpa [acceptedDraft] using h.symm
        subst ht
        obtain ⟨h1, h2, h3⟩ := check_pass_of_compliant t hc
        exact ⟨by simp [acceptedDraft, hc], by simp [acceptedDraft, h1],
          by simp [acceptedDraft, h2], by simp [acceptedDraft, h3]⟩
      | false =>
        by_cases ha : a < mr
        · rw [feedback_loop_of_ok_retry g mr a fuel f hg hc ha] at h ⊢
          exact ih (a + 1) t h
        · rw [feedback_loop_of_ok_exhaust g mr a fuel f hg hc ha] at h ⊢
          have ht : t = f := by simpa [exhaustedDraft] using h.symm
          subst ht
          exact ⟨by simp [exhaustedDraft, hc], by simp [exhaustedDraft],
            by simp [exhaustedDraft], by simp [exhaustedDraft]⟩

/-- C7: whenever `generate_compliant_feedback_for_recruiter` returns
with the feedback text present, the returned compliant flag,
violations, severity and recommendation are exactly the result of
applying `check_compliance` to that returned text. -/
theorem generate_feedback_verdict_fresh (gen : String → String → Nat → GenResult)
    (job_description cleaned_resume : String) (max_retries : Nat) (t : String)
    (h : (generate_compliant_feedback_for_recruiter gen job_description
        cleaned_resume max_retries).1.feedback = some t) :
    (generate_compliant_feedback_for_recruiter gen job_description cleaned_resume
        max_retries).1.compliant = (check_compliance t).compliant ∧
    (generate_compliant_feedback_for_recruiter gen job_description cleaned_resume
        max_retries).1.violations = (check_compliance t).violations ∧
    (generate_compliant_feedback_for_recruiter gen job_description cleaned_resume
        max_retries).1.severity = (check_compliance t).severity ∧
    (generate_compliant_feedback_for_recruiter gen job_description cleaned_resume
        max_retries).1.recommendation = (check_compliance t).recommendation :=
  feedback_loop_verdict_fresh (gen job_description cleaned_resume) max_retries
    (max_retries + 1) 0 t h

/-- C7 witness: an oracle returning the compliant empty string on the
first attempt; the returned draft carries exactly the screener's
verdict of the returned text. -/
theorem generate_feedback_verdict_fresh_witness :
    (generate_compliant_feedback_for_recruiter (fun _ _ _ => .ok "") "jd" "resume"
        2).1.compliant = (check_compliance "").compliant ∧
    (generate_compliant_feedback_for_recruiter (fun _ _ _ => .ok "") "jd" "resume"
        2).1.violations = (check_compliance "").violations ∧
    (generate_compliant_feedback_for_recruiter (fun _ _ _ => .ok "") "jd" "resume"
        2).1.severity = (check_compliance "").severity ∧
    (generate_compliant_feedback_for_recruiter (fun _ _ _ => .ok "") "jd" "resume"
        2).1.recommendation = (check_compliance "").recommendation :=
  generate_feedback_verdict_fresh (fun _ _ _ => .ok "") "jd" "resume" 2 "" (by decide)

/-! ### Ranking: order and stability -/

instance : IsTotal RankedCandidate scoreGE := ⟨fun a b => le_total b.score a.score⟩

instance : IsTrans RankedCandidate scoreGE := ⟨fun _ _ _ h1 h2 => le_trans h2 h1⟩

theorem rank_candidates_eq {V : Type} (emb : String → V) (cos : V → V → ℚ)
    (job_description : String) (candidates_data : List Candidate) :
    rank_candidates emb cos job_description candidates_data =
      (scored_candidates emb cos job_description candidates_data).insertionSort
        scoreGE := rfl

theorem filter_score_orderedInsert (s : ℚ) (a : RankedCandidate)
    (l : List RankedCandidate) :
    (l.orderedInsert scoreGE a).filter (fun c => decide (c.score = s)) =
      if a.score = s then a :: l.filter (fun c => decide (c.score = s))
      else l.filter (fun c => decide (c.score = s)) := by
  induction l with
  | nil =>
    by_cases has : a.score = s <;> simp [List.orderedInsert, List.filter, has]
  | cons b l ih =>
    by_cases hr : scoreGE a b
    · rw [List.orderedInsert, if_pos hr]
      by_cases has : a.score = s <;> by_cases hbs : b.score = s <;>
        simp [List.filter_cons, has, hbs]
    · rw [List.orderedInsert, if_neg hr]
      have hlt : a.score < b.score := not_le.mp hr
      by_cases has : a.score = s
      · have hbs : ¬ b.score = s := by
          rw [← has]
          exact ne_of_gt hlt
        simp [List.filter_cons, hbs, ih, has]
      · simp [List.filter_cons, ih, has]

theorem filter_score_insertionSort (s : ℚ) (l : List RankedCandidate) :
    (l.insertionSort scoreGE).filter (fun c => decide (c.score = s)) =
      l.filter (fun c => decide (c.score = s)) := by
  induction l with
  | nil => rfl
  | cons a l ih =>
    rw [List.insertionSort, filter_score_orderedInsert]
    by_cases has : a.score = s <;> simp [List.filter_cons, has, ih]

/-- C8: `rank_candidates` returns a permutation of the scored input
candidates, sorted by score descending, and the sort is stable: for any
score value, the candidates carrying that score appear in exactly their
original input order.  This holds for every job description, every
candidate list (hence every input order) and every behaviour of the
external embedding and similarity oracles. -/
theorem rank_candidates_sorted_stable_perm {V : Type} (emb : String → V)
    (cos : V → V → ℚ) (job_description : String)
    (candidates_data : List Candidate) :
    (rank_candidates emb cos job_description candidates_data).Perm
        (scored_candidates emb cos job_description candidates_data) ∧
    (rank_candidates emb cos job_description candidates_data).Sorted scoreGE ∧
    ∀ s : ℚ,
      (rank_candidates emb cos job_description candidates_data).filter
          (fun c => decide (c.score = s)) =
        (scored_candidates emb cos job_description candidates_data).filter
          (fun c => decide (c.score = s)) := by
  rw [rank_candidates_eq]
  exact ⟨List.perm_insertionSort scoreGE _, List.sorted_insertionSort scoreGE _,
    fun s => filter_score_insertionSort s _⟩

/-! ### Sanitizer: line structure -/

theorem splitChar_ne_nil (sep : Char) : ∀ l, splitChar sep l ≠ [] := by
  intro l
  induction l with
  | nil => simp [splitChar]
  | cons c cs ih =>
    rw [splitChar]
    cases h : splitChar sep cs with
    | nil => simp
    | cons p ps => by_cases hc : c = sep <;> simp [hc]

theorem splitChar_not_mem (sep : Char) :
    ∀ l, ∀ piece ∈ splitChar sep l, sep ∉ piece := by
  intro l
  induction l with
  | nil =>
    intro piece hp
    simp only [splitChar, List.mem_singleton] at hp
    subst hp
    exact List.not_mem_nil sep
  | cons c cs ih =>
    intro piece hp
    rw [splitChar] at hp
    cases h : splitChar sep cs with
    | nil => exact absurd h (splitChar_ne_nil sep cs)
    | cons p ps =>
      rw [h] at hp
      dsimp only at hp
      by_cases hc : c = sep
      · rw [if_pos hc] at hp
        rcases List.mem_cons.mp hp with hp0 | hp1
        · subst hp0
          exact List.not_mem_nil sep
        · exact ih piece (h ▸ hp1)
      · rw [if_neg hc] at hp
        rcases List.mem_cons.mp hp with hp0 | hp1
        · subst hp0
          intro hmem
          rcases List.mem_cons.mp hmem with hs | hs
          · exact hc hs.symm
          · exact ih p (h ▸ List.mem_cons_self p ps) hs
        · exact ih piece (h ▸ List.mem_cons_of_mem p hp1)

theorem splitChar_of_not_mem (sep : Char) :
    ∀ l, sep ∉ l → splitChar sep l = [l] := by
  intro l
  induction l with
  | nil => intro _; rfl
  | cons c cs ih =>
    intro h
    have hc : ¬ c = sep := fun hcs => h (hcs ▸ List.mem_cons_self c cs)
    have hcs : sep ∉ cs := fun hm => h (List.mem_cons_of_mem c hm)
    rw [splitChar, ih hcs]
    dsimp only
    rw [if_neg hc]

theorem splitChar_append (sep : Char) (m : List Char) :
    ∀ l, sep ∉ l → splitChar sep (l ++ sep :: m) = l :: splitChar sep m := by
  intro l
  induction l with
  | nil =>
    intro _
    rw [List.nil_append, splitChar]
    cases h : splitChar sep m with
    | nil => exact absurd h (splitChar_ne_nil sep m)
    | cons p ps =>
      dsimp only
      rw [if_pos rfl]
  | cons c cs ih =>
    intro h
    have hc : ¬ c = sep := fun hcs => h (hcs ▸ List.mem_cons_self c cs)
    have hcs : sep ∉ cs := fun hm => h (List.mem_cons_of_mem c hm)
    rw [List.cons_append, splitChar, ih hcs]
    dsimp only
    rw [if_neg hc]

theorem splitChar_joinChar (sep : Char) :
    ∀ pieces, pieces ≠ [] → (∀ p ∈ pieces, sep ∉ p) →
      splitChar sep (joinChar sep pieces) = pieces := by
  intro pieces
  induction pieces with
  | nil => intro h; exact absurd rfl h
  | cons p ps ih =>
    intro _ hall
    cases ps with
    | nil =>
      rw [joinChar]
      exact splitChar_of_not_mem sep p (hall p (List.mem_cons_self p []))
    | cons q qs =>
      rw [joinChar, splitChar_append sep _ p (hall p (List.mem_cons_self p _))]
      rw [ih (by simp) (fun r hr => hall r (List.mem_cons_of_mem p hr))]

/-- C9: `sanitize_feedback` splits the text into lines, replaces
exactly those lines containing a prohibited term (allow-list ignored)
by the fixed marker, leaves every other line unchanged in its position,
and rejoins with newlines; in particular the output has the same number
of lines as the input. -/
theorem sanitize_feedback_linewise (text : String) :
    splitChar '\n' (sanitize_feedback text).data =
      (splitChar '\n' text.data).map
        (fun line => if lineHasViolation line then removed_marker.data else line) ∧
    (splitChar '\n' (sanitize_feedback text).data).length =
      (splitChar '\n' text.data).length := by
  have hdata : (sanitize_feedback text).data =
      joinChar '\n' ((splitChar '\n' text.data).map
        (fun line => if lineHasViolation line then removed_marker.data else line)) :=
    rfl
  have hmark : ('\n' : Char) ∉ removed_marker.data := by decide
  have hmain : splitChar '\n' (sanitize_feedback text).data =
      (splitChar '\n' text.data).map
        (fun line => if lineHasViolation line then removed_marker.data else line) := by
    rw [hdata]
    apply splitChar_joinChar
    · simp [splitChar_ne_nil]
    · intro p hp
      rw [List.mem_map] at hp
      obtain ⟨line, hline, rfl⟩ := hp
      by_cases hv : lineHasViolation line
      · simpa [hv] using hmark
      · simpa [hv] using splitChar_not_mem '\n' text.data line hline
  exact ⟨hmain, by rw [hmain]; simp⟩

end ATS
